import Mathlib

/-!
Verification development for the dataset-partitioning core of the
reviewer-experience-prediction repository.

The development shallowly embeds, in Lean, the parts of the source that the
specification talks about:

* util/datasets.pyx : get_bin_ranges and get_bin (label-value binning);
* src/experiments.pyx : distributional_info and the ExperimentalData class
  (constructor validation, _make_test_set, _generate_training_fold,
  _generate_dataset, _construct_layered_dataset).

Conventions used throughout the embedding:

* Python floats are idealised as rationals.  All arithmetic performed by the
  source on label frequencies, shrink factors and sizes is exact in the
  ranges exercised here, so the idealisation is faithful.
* Python ints are Int where a negative value can reach the code, Nat after
  validation has established non-negativity.
* Sample identifiers, label values and game identifiers are opaque tokens;
  they are represented as Nat.
* A Python dict mapping identifiers to labels is represented as an
  association list.  The source only iterates dictionaries in order to sort
  the result immediately afterwards, so the iteration order of the dict
  never matters; key uniqueness is carried as a Nodup hypothesis where a
  theorem needs it.
* numpy.random.RandomState(12345).shuffle is external library code; it is
  modelled as an arbitrary function, and theorems assume only that it
  permutes its input.  Concrete evaluations instantiate it with the identity
  permutation.
* Raising an exception is modelled as Except.error carrying the message.
-/

section REP

attribute [local semireducible] Rat.add Rat.sub Rat.mul Rat.inv

/-! ## util/datasets.pyx -/

/-- Python round(x, 1): round to one decimal, ties to even (banker's
rounding), idealised over the rationals. -/
def pyRound1 (x : ℚ) : ℚ :=
  let t : ℚ := 10 * x
  let f : ℤ := Int.floor t
  let r : ℚ := t - (f : ℚ)
  let n : ℤ :=
    if r < 1 / 2 then f
    else if 1 / 2 < r then f + 1
    else if f % 2 = 0 then f else f + 1
  (n : ℚ) / 10

/-- The loop of get_bin_ranges: starting at binStart, produce the remaining
ranges.  Each range is (start, start + binSize) except the last, which is
(start, start + binSize + 1.0), exactly as in the source loop over
b in range(1, nbins + 1). -/
def binRangesFrom (binSize : ℚ) : ℚ → ℕ → List (ℚ × ℚ)
  | _, 0 => []
  | binStart, 1 => [(binStart, binStart + binSize + 1)]
  | binStart, n + 2 =>
      (binStart, binStart + binSize) ::
        binRangesFrom binSize (binStart + binSize) (n + 1)

/-- get_bin_ranges(_min, _max, nbins) from util/datasets.pyx.

bin_size = round((_max - _min)/nbins, 1); the first range starts at
_min - 0.1, each subsequent range starts at the previous end, and the last
range is widened by 1.0.  nbins = 0 hits a float division by zero, which
Cython (cdivision off) raises as ZeroDivisionError; a negative nbins makes
range(1, nbins + 1) empty, so the function returns an empty list. -/
def get_bin_ranges (mn mx : ℚ) (nbins : ℤ) : Except String (List (ℚ × ℚ)) :=
  if nbins = 0 then .error "ZeroDivisionError: float division"
  else
    .ok (binRangesFrom (pyRound1 ((mx - mn) / (nbins : ℚ))) (mn - 1 / 10)
          nbins.toNat)

/-- The loop of get_bin, carrying the running enumerate index. -/
def getBinAux (val : ℚ) : List (ℚ × ℚ) → ℕ → ℤ
  | [], _ => -1
  | r :: rest, i =>
      if r.1 < val ∧ val ≤ r.2 then (i : ℤ) + 1 else getBinAux val rest (i + 1)

/-- get_bin(bin_ranges, val) from util/datasets.pyx: the 1-based index of the
first range with val > low and val <= high, and -1 when no range matches. -/
def get_bin (bin_ranges : List (ℚ × ℚ)) (val : ℚ) : ℤ :=
  getBinAux val bin_ranges 0

/-! ### Basic facts about the binning functions -/

theorem binRangesFrom_length (s : ℚ) : ∀ (n : ℕ) (st : ℚ),
    (binRangesFrom s st n).length = n := by
  intro n
  induction n with
  | zero => intro st; rfl
  | succ m ih =>
      intro st
      match m, ih with
      | 0, _ => rfl
      | m' + 1, ih => simp [binRangesFrom, ih]

theorem binRangesFrom_get (s : ℚ) : ∀ (n : ℕ) (st : ℚ) (i : ℕ), i < n →
    (binRangesFrom s st n)[i]? =
      some (st + i * s, st + (i + 1) * s + (if i = n - 1 then 1 else 0)) := by
  intro n
  induction n with
  | zero => intro st i h; omega
  | succ m ih =>
      intro st i h
      match m, ih with
      | 0, _ =>
          interval_cases i
          simp only [binRangesFrom, List.getElem?_cons_zero, Option.some.injEq]
          norm_num
      | m' + 1, ih =>
          match i with
          | 0 =>
              have h0 : (0 : ℕ) ≠ m' + 2 - 1 := by omega
              simp only [binRangesFrom, List.getElem?_cons_zero, if_neg h0,
                Option.some.injEq]
              norm_num
          | j + 1 =>
              have hj : j < m' + 1 := by omega
              have hrec := ih (st + s) j hj
              simp only [binRangesFrom, List.getElem?_cons_succ]
              rw [hrec]
              refine congrArg some (Prod.ext ?_ ?_)
              · push_cast; ring
              · by_cases hc : j = m'
                · subst hc
                  simp only [if_pos rfl, Nat.add_sub_cancel, if_true]
                  push_cast; ring
                · have h1 : j ≠ m' + 1 - 1 := by omega
                  have h2 : j + 1 ≠ m' + 1 + 1 - 1 := by omega
                  rw [if_neg h1, if_neg h2]
                  push_cast; ring

theorem getBinAux_eq_neg_one_iff (v : ℚ) : ∀ (brs : List (ℚ × ℚ)) (i₀ : ℕ),
    (getBinAux v brs i₀ = -1 ↔ ∀ r ∈ brs, ¬(r.1 < v ∧ v ≤ r.2)) := by
  intro brs
  induction brs with
  | nil => intro i₀; simp [getBinAux]
  | cons b rest ih =>
      intro i₀
      by_cases hb : b.1 < v ∧ v ≤ b.2
      · simp only [getBinAux, if_pos hb]
        constructor
        · intro h; exfalso; omega
        · intro h; exact absurd hb (h b (List.mem_cons_self b rest))
      · simp only [getBinAux, if_neg hb]
        rw [ih (i₀ + 1)]
        constructor
        · intro h r hr
          rcases List.mem_cons.mp hr with h1 | h2
          · subst h1; exact hb
          · exact h r h2
        · intro h r hr; exact h r (List.mem_cons_of_mem b hr)

theorem getBinAux_first_match (v : ℚ) : ∀ (brs : List (ℚ × ℚ)) (i₀ i : ℕ)
    (r : ℚ × ℚ), brs[i]? = some r → (r.1 < v ∧ v ≤ r.2) →
    (∀ j rj, j < i → brs[j]? = some rj → ¬(rj.1 < v ∧ v ≤ rj.2)) →
    getBinAux v brs i₀ = ((i₀ + i : ℕ) : ℤ) + 1 := by
  intro brs
  induction brs with
  | nil => intro i₀ i r hr; simp at hr
  | cons b rest ih =>
      intro i₀ i r hr hmatch hfirst
      match i with
      | 0 =>
          simp only [List.getElem?_cons_zero, Option.some.injEq] at hr
          subst hr
          simp only [getBinAux, if_pos hmatch]
          norm_num
      | j + 1 =>
          have hb : ¬(b.1 < v ∧ v ≤ b.2) :=
            hfirst 0 b (by omega) List.getElem?_cons_zero
          simp only [getBinAux, if_neg hb]
          simp only [List.getElem?_cons_succ] at hr
          have hrest : ∀ k rk, k < j → rest[k]? = some rk →
              ¬(rk.1 < v ∧ v ≤ rk.2) := by
            intro k rk hk hkr
            exact hfirst (k + 1) rk (by omega) (by simpa using hkr)
          have := ih (i₀ + 1) j r hr hmatch hrest
          rw [this]
          push_cast
          ring

/-! ### Claim theorems about the binning functions -/

/-- C7: for every bin-range list and every value, get_bin returns the 1-based
index of the first range satisfying value > low and value <= high, and
returns the sentinel -1 when no range matches; being a pure function of its
two arguments it is total and deterministic. -/
theorem c7_get_bin_first_match_or_sentinel (brs : List (ℚ × ℚ)) (v : ℚ) :
    (get_bin brs v = -1 ↔ ∀ r ∈ brs, ¬(r.1 < v ∧ v ≤ r.2)) ∧
    (∀ (i : ℕ) (r : ℚ × ℚ), brs[i]? = some r → (r.1 < v ∧ v ≤ r.2) →
      (∀ (j : ℕ) (rj : ℚ × ℚ), j < i → brs[j]? = some rj →
        ¬(rj.1 < v ∧ v ≤ rj.2)) →
      get_bin brs v = (i : ℤ) + 1) := by
  constructor
  · exact getBinAux_eq_neg_one_iff v brs 0
  · intro i r hr hm hf
    have h := getBinAux_first_match v brs 0 i r hr hm hf
    simpa using h

/-- Witness for C7: on ranges [(0, 1), (1, 2)] the value 3/2 matches the
second range first, so get_bin returns 2. -/
theorem c7_get_bin_witness :
    get_bin [((0 : ℚ), (1 : ℚ)), (1, 2)] (3 / 2) = 2 := by
  have hfirst : ∀ (j : ℕ) (rj : ℚ × ℚ), j < 1 →
      ([((0 : ℚ), (1 : ℚ)), (1, 2)])[j]? = some rj →
      ¬(rj.1 < (3 / 2 : ℚ) ∧ (3 / 2 : ℚ) ≤ rj.2) := by
    intro j rj hj hrj
    interval_cases j
    simp only [List.getElem?_cons_zero, Option.some.injEq] at hrj
    subst hrj
    decide
  have h := (c7_get_bin_first_match_or_sentinel
      [((0 : ℚ), (1 : ℚ)), (1, 2)] (3 / 2)).2 1 (1, 2) rfl (by decide) hfirst
  simpa using h

/-- C5 counterexample: for min = 0, max = 10, n_bins = 5 the generated ranges
do NOT all have width round((max - min)/n_bins, 1) = 2.0: the final range is
widened by 1.0 (width 3.0), so the claim "each segment has equal width" fails
at this input. -/
theorem c5_counterexample :
    ¬ (∀ rs, get_bin_ranges 0 10 5 = .ok rs →
        ∀ r ∈ rs, r.2 - r.1 = pyRound1 ((10 - 0) / 5)) := by
  intro h
  have hok : get_bin_ranges 0 10 5 =
      .ok [(-1/10, 19/10), (19/10, 39/10), (39/10, 59/10), (59/10, 79/10),
           (79/10, 109/10)] := rfl
  have h79 := h _ hok (79/10, 109/10) (by decide)
  have hs : pyRound1 ((10 - 0) / 5) = 2 := by decide
  rw [hs] at h79
  norm_num at h79

/-- C5 (amended): for min <= max and n_bins >= 1, get_bin_ranges returns
exactly n_bins contiguous ranges, the first starting at min - 0.1, each
range's low equal to the previous range's high, every segment except the
last of width round((max - min)/n_bins, 1), the LAST segment widened by 1.0,
and the ranges strictly ascending whenever that rounded width is positive;
on (0, 10, 5) this yields the five concrete ranges (last width 3.0) and
get_bin of value 10.0 over them returns index 5. -/
theorem c5_bin_ranges_amended (mn mx : ℚ) (n : ℤ) (h1 : 1 ≤ n)
    (_hmnmx : mn ≤ mx) :
    ∃ rs, get_bin_ranges mn mx n = .ok rs ∧
      rs.length = n.toNat ∧
      (∀ r₀, rs[0]? = some r₀ → r₀.1 = mn - 1/10) ∧
      (∀ (i : ℕ) ri rj, rs[i]? = some ri → rs[i+1]? = some rj →
        rj.1 = ri.2) ∧
      (∀ (i : ℕ) r, i + 1 < rs.length → rs[i]? = some r →
        r.2 - r.1 = pyRound1 ((mx - mn) / (n : ℚ))) ∧
      (∀ r, rs[n.toNat - 1]? = some r →
        r.2 - r.1 = pyRound1 ((mx - mn) / (n : ℚ)) + 1) ∧
      (0 < pyRound1 ((mx - mn) / (n : ℚ)) →
        ∀ (i : ℕ) r, rs[i]? = some r → r.1 < r.2) ∧
      get_bin_ranges 0 10 5 = .ok [(-1/10, 19/10), (19/10, 39/10),
        (39/10, 59/10), (59/10, 79/10), (79/10, 109/10)] ∧
      get_bin [((-1 : ℚ)/10, (19 : ℚ)/10), (19/10, 39/10), (39/10, 59/10),
        (59/10, 79/10), (79/10, 109/10)] 10 = 5 := by
  have hne : n ≠ 0 := by omega
  set s : ℚ := pyRound1 ((mx - mn) / (n : ℚ)) with hs
  set st : ℚ := mn - 1/10 with hst
  set rs : List (ℚ × ℚ) := binRangesFrom s st n.toNat with hrs
  have hlen : rs.length = n.toNat := binRangesFrom_length s n.toNat st
  have hpos : 0 < n.toNat := by omega
  have hget : ∀ (i : ℕ), i < n.toNat → rs[i]? =
      some (st + i * s, st + (i + 1) * s +
        (if i = n.toNat - 1 then 1 else 0)) :=
    fun i hi => binRangesFrom_get s n.toNat st i hi
  have hbound : ∀ (i : ℕ) (r : ℚ × ℚ), rs[i]? = some r → i < n.toNat := by
    intro i r hr
    by_contra hcon
    rw [List.getElem?_eq_none (by omega : rs.length ≤ i)] at hr
    exact Option.noConfusion hr
  refine ⟨rs, ?_, hlen, ?_, ?_, ?_, ?_, ?_, rfl, by decide⟩
  · unfold get_bin_ranges
    rw [if_neg hne]
  · intro r₀ hr₀
    rw [hget 0 hpos] at hr₀
    have h0 : (0 : ℕ) ≠ n.toNat - 1 ∨ n.toNat = 1 := by omega
    simp only [Option.some.injEq] at hr₀
    rw [← hr₀]
    norm_num
  · intro i ri rj hri hrj
    have hi1 : i + 1 < n.toNat := hbound (i + 1) rj hrj
    have hi : i < n.toNat := by omega
    have hine : i ≠ n.toNat - 1 := by omega
    rw [hget i hi] at hri
    rw [hget (i + 1) hi1] at hrj
    simp only [Option.some.injEq] at hri hrj
    rw [← hri, ← hrj]
    simp only [if_neg hine]
    push_cast
    ring
  · intro i r hlt hr
    rw [hlen] at hlt
    have hine : i ≠ n.toNat - 1 := by omega
    rw [hget i (by omega)] at hr
    simp only [Option.some.injEq] at hr
    rw [← hr]
    simp only [if_neg hine]
    ring
  · intro r hr
    rw [hget (n.toNat - 1) (by omega)] at hr
    simp only [Option.some.injEq, if_pos rfl] at hr
    rw [← hr]
    push_cast
    ring
  · intro hspos i r hr
    have hi : i < n.toNat := hbound i r hr
    rw [hget i hi] at hr
    simp only [Option.some.injEq] at hr
    rw [← hr]
    by_cases hc : i = n.toNat - 1
    · rw [if_pos hc]
      push_cast
      nlinarith
    · rw [if_neg hc]
      push_cast
      nlinarith

/-- Witness for C5: the amended theorem applies at min = 0, max = 10,
n_bins = 5 and yields five ranges. -/
theorem c5_bin_ranges_witness :
    (1 : ℤ) ≤ 5 ∧ (0 : ℚ) ≤ 10 ∧
      ∃ rs, get_bin_ranges 0 10 5 = .ok rs ∧ rs.length = 5 := by
  refine ⟨by norm_num, by norm_num, ?_⟩
  obtain ⟨rs, hok, hlenr, -⟩ := c5_bin_ranges_amended 0 10 5 (by norm_num)
    (by norm_num)
  exact ⟨rs, hok, by simpa using hlenr⟩

/-- C8 counterexample: get_bin_ranges does not fail for every n_bins < 1;
at n_bins = -1 it returns an empty list instead of an error. -/
theorem c8_counterexample :
    ¬ (∀ (mn mx : ℚ) (n : ℤ), n < 1 →
        ∃ msg, get_bin_ranges mn mx n = .error msg) := by
  intro h
  obtain ⟨msg, hmsg⟩ := h 0 10 (-1) (by norm_num)
  rw [show get_bin_ranges 0 10 (-1) = .ok [] from rfl] at hmsg
  exact Except.noConfusion hmsg

/-- C8 (amended): for n_bins < 1 the behaviour splits: n_bins = 0 fails with
a division-by-zero error, while a negative n_bins silently returns an empty
bin-range list; so only n_bins >= 1 yields usable bin ranges, but there is
no explicit validation. -/
theorem c8_nbins_amended (mn mx : ℚ) (n : ℤ) (h : n < 1) :
    (n = 0 →
      get_bin_ranges mn mx n = .error "ZeroDivisionError: float division") ∧
    (n < 0 → get_bin_ranges mn mx n = .ok []) := by
  constructor
  · intro h0
    subst h0
    rfl
  · intro hneg
    have hne : n ≠ 0 := by omega
    unfold get_bin_ranges
    rw [if_neg hne, Int.toNat_of_nonpos (by omega)]
    rfl

/-- Witness for C8: the amended theorem applies at n_bins = -1. -/
theorem c8_nbins_witness :
    (-1 : ℤ) < 1 ∧ get_bin_ranges 0 10 (-1) = .ok [] :=
  ⟨by norm_num, (c8_nbins_amended 0 10 (-1) (by norm_num)).2 (by norm_num)⟩

/-! ## src/experiments.pyx : data model

A corpus sample carries an identifier (id_string), the game it belongs to
and its (already transformed) label value.  The label transform itself
(lognormal / power / binning) is orthogonal to every claim, so corpus
entries carry the final label value directly. -/

/-- One corpus review document, reduced to the fields the partitioning engine
reads: id_string, game, and the computed label value. -/
structure Sample where
  id : ℕ
  game : ℕ
  label : ℕ
  deriving DecidableEq, Repr

/-- The id_strings_labels dictionary: identifier to label value.  The source
only ever iterates it into a list that is immediately sorted, so an
association list is a faithful representation. -/
abbrev Pool := List (ℕ × ℕ)

/-- int(np.ceil(x)) for the non-negative x produced by the sampling
arithmetic. -/
def ceilNat (x : ℚ) : ℕ := (Int.ceil x).toNat

/-- The sampling parameter: 'even' or 'stratified'. -/
inductive Sampling where
  | even : Sampling
  | stratified : Sampling
  deriving DecidableEq

/-- [_id for _id in id_strings_labels if id_strings_labels[_id] == label]. -/
def poolIdsWithLabel (pool : Pool) (l : ℕ) : List ℕ :=
  (pool.filter (fun p => p.2 == l)).map Prod.fst

/-- Number of pool entries carrying a given label value. -/
def labelCount (pool : Pool) (l : ℕ) : ℕ :=
  (pool.filter (fun p => p.2 == l)).length

/-- FreqDist.freq(label): relative frequency of a label value among the
samples that produced the pool. -/
def fdistFreq (pool : Pool) (l : ℕ) : ℚ :=
  (labelCount pool l : ℚ) / (pool.length : ℚ)

/-- The distinct label values in first-occurrence order, as iterating the
FreqDist (a dict built by first insertion) yields them. -/
def distinctLabels (ls : List ℕ) : List ℕ :=
  ls.foldl (fun acc x => if x ∈ acc then acc else acc ++ [x]) []

/-- sorted(labels_fdist, key=lambda l: labels_fdist[l]): the label values in
ascending order of frequency (Python's sort is stable, as is insertion
sort). -/
def sortedLabels (pool : Pool) : List ℕ :=
  List.insertionSort (fun a b => labelCount pool a ≤ labelCount pool b)
    (distinctLabels (pool.map Prod.snd))

/-- all_label_ids: the ids of a label bucket, sorted and then shuffled with
the seeded PRNG (modelled by the ambient shuffle function). -/
def labelIdsOf (shuffle : List ℕ → List ℕ) (pool : Pool) (l : ℕ) : List ℕ :=
  shuffle (List.insertionSort (· ≤ ·) (poolIdsWithLabel pool l))

/-- The first loop of the stratified branches of _make_test_set and
_generate_training_fold: the global shrink factor.  For each label (in the
given order), the desired quota is int(np.ceil(freq * size)); if the bucket
holds fewer ids than the quota, 1 - shortfall/quota is a candidate factor
and the minimum over all labels is kept (starting from 1.0). -/
def shrinkFactor (freq : ℕ → ℚ) (availCount : ℕ → ℕ) (size : ℚ)
    (labels : List ℕ) : ℚ :=
  labels.foldl
    (fun factor l =>
      let n := ceilNat (freq l * size)
      let nActual := min (availCount l) n
      if nActual < n then
        min factor (1 - ((n : ℚ) - (nActual : ℚ)) / (n : ℚ))
      else factor)
    1

/-- The second loop of the stratified branches: for each label (same order)
extend the result with the first ceil(freq * size) ids of its bucket. -/
def stratifiedDraw (freq : ℕ → ℚ) (labelIds : ℕ → List ℕ) (size : ℚ)
    (labels : List ℕ) : List ℕ :=
  labels.foldl (fun acc l => acc ++ (labelIds l).take (ceilNat (freq l * size)))
    []

/-- The even-mode loop after n_label_min has been fixed: every remaining
label contributes its first n_label_min ids. -/
def evenTail (labelIds : ℕ → List ℕ) (nLabelMin : ℕ) (labels : List ℕ) :
    List ℕ :=
  labels.foldl (fun acc l => acc ++ (labelIds l).take nLabelMin) []

/-- The even branch of _generate_training_fold.  The first label fixes
n_label_min = len(all_label_ids[:ceil(size/num_labels)]); if that is zero
the code raises when no fold has been collected yet for this data-set and
otherwise returns an empty fold (modelled as Option none, since that early
return also skips the pool-consuming epilogue). -/
def evenDraw (n_folds_collected : ℕ) (q : ℕ) (labelIds : ℕ → List ℕ) :
    List ℕ → Except String (Option (List ℕ))
  | [] => .ok (some [])
  | l :: rest =>
      let ids := labelIds l
      let nActual := (ids.take q).length
      if nActual = 0 then
        if n_folds_collected = 0 then
          .error "Could not generate fold due to a lack of samples."
        else .ok none
      else .ok (some (ids.take nActual ++ evenTail labelIds nActual rest))

/-- The even branch of _make_test_set: identical, except that a first label
with an empty bucket always raises. -/
def evenDrawTest (q : ℕ) (labelIds : ℕ → List ℕ) :
    List ℕ → Except String (List ℕ)
  | [] => .ok []
  | l :: rest =>
      let ids := labelIds l
      let nActual := (ids.take q).length
      if nActual = 0 then
        .error "The total number of samples for a label in the test set is 0."
      else .ok (ids.take nActual ++ evenTail labelIds nActual rest)

/-- The epilogue shared by _make_test_set and _generate_training_fold:
convert to an array, sort, shuffle, and truncate to the (possibly shrunk,
hence rational) size.  An old-numpy float slice index truncates toward
zero, i.e. floor for the non-negative sizes that occur. -/
def truncateToSize (shuffle : List ℕ → List ℕ) (size : ℚ) (draw : List ℕ) :
    List ℕ :=
  let fs := shuffle (List.insertionSort (· ≤ ·) draw)
  if (fs.length : ℚ) > size then fs.take (Int.floor size).toNat else fs

/-- The fold epilogue additionally deletes every drawn id from
id_strings_labels. -/
def postProcess (shuffle : List ℕ → List ℕ) (size : ℚ) (draw : List ℕ)
    (pool : Pool) : List ℕ × Pool :=
  let fs := truncateToSize shuffle size draw
  (fs, pool.filter (fun p => decide (p.1 ∉ fs)))

/-- ExperimentalData._generate_training_fold.  freq and labels stand for
self.labels_fdist (freq values resp. ascending-frequency iteration order),
pool for self.id_strings_labels.  In the stratified branch, when the shrink
factor is below 1.0, more than one fold is needed and the reduction is
under 10%, the source evaluates len(n_folds_collected) on an int, which
raises TypeError unconditionally. -/
def generate_training_fold (sampling : Sampling) (shuffle : List ℕ → List ℕ)
    (freq : ℕ → ℚ) (labels : List ℕ) (fold_size : ℕ)
    (n_folds_collected n_folds_needed : ℕ) (pool : Pool) :
    Except String (List ℕ × Pool) :=
  let labelIds := labelIdsOf shuffle pool
  match sampling with
  | .stratified =>
      let factor :=
        shrinkFactor freq (fun l => (labelIds l).length) (fold_size : ℚ) labels
      if factor < 1 then
        if n_folds_needed ≠ 1 ∧ 1 - factor < 1/10 then
          .error "TypeError: object of type int has no len()"
        else
          let size := factor * (fold_size : ℚ)
          .ok (postProcess shuffle size
                (stratifiedDraw freq labelIds size labels) pool)
      else
        .ok (postProcess shuffle (fold_size : ℚ)
              (stratifiedDraw freq labelIds (fold_size : ℚ) labels) pool)
  | .even =>
      match evenDraw n_folds_collected
          (ceilNat ((fold_size : ℚ) / (labels.length : ℚ))) labelIds labels with
      | .error e => .error e
      | .ok none => .ok ([], pool)
      | .ok (some draw) =>
          .ok (postProcess shuffle (fold_size : ℚ) draw pool)

/-- ExperimentalData._make_test_set, parameterized over the test
distribution (freq, labels, pool).  Returns none on an empty test pool
(the source's early return of None), otherwise the drawn test set together
with the final value of self.test_size (a float once shrunk).  The test set
does NOT consume its pool.  In the stratified branch, the source raises
exactly when the factor is below 1.0 and 1 - factor < 0.5. -/
def make_test_set (sampling : Sampling) (shuffle : List ℕ → List ℕ)
    (freq : ℕ → ℚ) (labels : List ℕ) (test_size : ℕ) (pool : Pool) :
    Except String (Option (List ℕ × ℚ)) :=
  if pool = [] then .ok none
  else
    let labelIds := labelIdsOf shuffle pool
    match sampling with
    | .stratified =>
        let factor :=
          shrinkFactor freq (fun l => (labelIds l).length) (test_size : ℚ)
            labels
        if factor < 1 then
          if 1 - factor < 1/2 then
            .error "Could not generate a stratified test set that is equal to the desired size or even 50 percent of the desired size."
          else
            let size := factor * (test_size : ℚ)
            .ok (some (truncateToSize shuffle size
                  (stratifiedDraw freq labelIds size labels), size))
        else
          .ok (some (truncateToSize shuffle (test_size : ℚ)
                (stratifiedDraw freq labelIds (test_size : ℚ) labels),
                (test_size : ℚ)))
    | .even =>
        match evenDrawTest (ceilNat ((test_size : ℚ) / (labels.length : ℚ)))
            labelIds labels with
        | .error e => .error e
        | .ok draw =>
            .ok (some (truncateToSize shuffle (test_size : ℚ) draw,
                  (test_size : ℚ)))

/-- The fold loop of ExperimentalData._generate_dataset: up to the requested
number of folds, stopping at the first empty fold, threading the shrinking
pool and counting the folds collected. -/
def generateDatasetLoop (sampling : Sampling) (shuffle : List ℕ → List ℕ)
    (freq : ℕ → ℚ) (labels : List ℕ) (fold_size : ℕ) (n_folds_needed : ℕ) :
    ℕ → ℕ → List (List ℕ) → Pool →
    Except String (List (List ℕ) × ℕ × Pool)
  | 0, collected, acc, pool => .ok (acc, collected, pool)
  | remaining + 1, collected, acc, pool =>
      match generate_training_fold sampling shuffle freq labels fold_size
          collected n_folds_needed pool with
      | .error e => .error e
      | .ok (fold, pool') =>
          if fold.length ≠ 0 then
            generateDatasetLoop sampling shuffle freq labels fold_size
              n_folds_needed remaining (collected + 1) (acc ++ [fold]) pool'
          else .ok (acc, collected, pool')

/-- ExperimentalData._generate_dataset: run the fold loop, then accept the
data-set only if folds_collected >= 0.75 * folds (exact for the integer
values involved as 4 * collected >= 3 * folds). -/
def generate_dataset (sampling : Sampling) (shuffle : List ℕ → List ℕ)
    (freq : ℕ → ℚ) (labels : List ℕ) (folds fold_size : ℕ) (pool : Pool) :
    Except String (List (List ℕ) × Pool) :=
  match generateDatasetLoop sampling shuffle freq labels fold_size folds
      folds 0 [] pool with
  | .error e => .error e
  | .ok (acc, collected, pool') =>
      if 4 * collected ≥ 3 * folds then .ok (acc, pool')
      else .error "Could not generate a data-set consisting of at least 75 percent of the desired size."

/-- distributional_info, reduced to what the partitioning engine consumes:
filter the corpus to the requested games, fail if nothing is left, and
return the (id_string, label) pairs.  Frequency data is derived from the
result by fdistFreq and sortedLabels. -/
def distributional_info (corpus : List Sample) (games : Finset ℕ) :
    Except String Pool :=
  let samples := corpus.filter (fun s => decide (s.game ∈ games))
  if samples = [] then .error "No review documents were found!"
  else .ok (samples.map (fun s => (s.id, s.label)))

/-- Step 1 of ExperimentalData._construct_layered_dataset: build the test
set when test_size is nonzero.  Yields the test set (none models the
source's None return on an empty test distribution), the final value of
self.test_size, and the cached (id_strings_labels, labels_fdist) snapshot,
present exactly when games == test_games and the snapshot is non-empty
(the source caches inside _make_test_set and step 2 re-queries whenever
either cached value is falsy). -/
def cldTestPhase (corpus : List Sample) (games test_games : Finset ℕ)
    (sampling : Sampling) (shuffle : List ℕ → List ℕ) (test_size : ℕ) :
    Except String (Option (List ℕ) × ℚ × Option Pool) :=
  if test_size ≠ 0 then
    match distributional_info corpus test_games with
    | .error e => .error e
    | .ok testPool =>
        let cache : Option Pool :=
          if test_games = games ∧ testPool ≠ [] then some testPool else none
        match make_test_set sampling shuffle (fdistFreq testPool)
            (sortedLabels testPool) test_size testPool with
        | .error e => .error e
        | .ok none => .ok (none, (test_size : ℚ), cache)
        | .ok (some (ts, szQ)) => .ok (some ts, szQ, cache)
  else .ok (some [], (test_size : ℚ), none)

/-- Step 2: reuse the cached training distribution or query it afresh over
the training games. -/
def cldBasePool (corpus : List Sample) (games : Finset ℕ)
    (cache : Option Pool) : Except String Pool :=
  match cache with
  | some c => .ok c
  | none => distributional_info corpus games

/-- Step 3: delete every test-set id from the pool, but only when
self.test_size is (still) truthy and the game sets overlap.  Iterating a
None test set raises TypeError. -/
def cldRemoveTest (games test_games : Finset ℕ) (szQ : ℚ)
    (tsOpt : Option (List ℕ)) (basePool : Pool) : Except String Pool :=
  if szQ ≠ 0 ∧ (games ∩ test_games).Nonempty then
    match tsOpt with
    | none => .error "TypeError: NoneType object is not iterable"
    | some ts => .ok (basePool.filter (fun p => decide (p.1 ∉ ts)))
  else .ok basePool

/-- Step 4: generate the main training data-set when folds is nonzero
(otherwise training_set stays None). -/
def cldTrainPhase (sampling : Sampling) (shuffle : List ℕ → List ℕ)
    (freq : ℕ → ℚ) (labels : List ℕ) (folds fold_size : ℕ) (pool1 : Pool) :
    Except String (Option (List (List ℕ)) × Pool) :=
  if folds ≠ 0 then
    match generate_dataset sampling shuffle freq labels folds fold_size
        pool1 with
    | .error e => .error e
    | .ok (tr, pool2) => .ok (some tr, pool2)
  else .ok (none, pool1)

/-- Step 5: generate the grid search data-set when grid_search_folds is
nonzero, against the pool left over by the main data-set. -/
def cldGridPhase (sampling : Sampling) (shuffle : List ℕ → List ℕ)
    (freq : ℕ → ℚ) (labels : List ℕ)
    (grid_search_folds grid_search_fold_size : ℕ) (pool2 : Pool) :
    Except String (Option (List (List ℕ))) :=
  if grid_search_folds ≠ 0 then
    match generate_dataset sampling shuffle freq labels grid_search_folds
        grid_search_fold_size pool2 with
    | .error e => .error e
    | .ok (gs, _) => .ok (some gs)
  else .ok none

/-- ExperimentalData._construct_layered_dataset followed by the trailing
num_datasets assignment of __init__'s construction phase.

Steps, mirroring the source: build the test set when test_size is nonzero;
build or reuse the training distribution; delete test-set ids from the pool
when test_size is truthy and the game sets overlap; generate the main
data-set when folds is nonzero and the grid search data-set when
grid_search_folds is nonzero, against the same shrinking pool but the
unchanged cached frequency data; finally evaluate len(self.training_set),
which raises TypeError when no main data-set was generated (training_set is
still None).  Returns (training_set, grid_search_set, test_set,
num_datasets). -/
def construct_layered_dataset (corpus : List Sample)
    (games test_games : Finset ℕ) (sampling : Sampling)
    (shuffle : List ℕ → List ℕ)
    (folds fold_size grid_search_folds grid_search_fold_size test_size : ℕ) :
    Except String
      (List (List ℕ) × Option (List (List ℕ)) × Option (List ℕ) × ℕ) :=
  match cldTestPhase corpus games test_games sampling shuffle test_size with
  | .error e => .error e
  | .ok (tsOpt, szQ, cache) =>
      match cldBasePool corpus games cache with
      | .error e => .error e
      | .ok basePool =>
          let freq := fdistFreq basePool
          let labels := sortedLabels basePool
          match cldRemoveTest games test_games szQ tsOpt basePool with
          | .error e => .error e
          | .ok pool1 =>
              match cldTrainPhase sampling shuffle freq labels folds
                  fold_size pool1 with
              | .error e => .error e
              | .ok (trOpt, pool2) =>
                  match cldGridPhase sampling shuffle freq labels
                      grid_search_folds grid_search_fold_size pool2 with
                  | .error e => .error e
                  | .ok gsOpt =>
                      match trOpt with
                      | none =>
                          .error "TypeError: object of type NoneType has no len()"
                      | some tr => .ok (tr, gsOpt, tsOpt, tr.length)

/-- The constructor parameters of ExperimentalData that take part in input
validation.  A test_games value of the empty set stands for an unspecified
(or empty, both falsy) test_games argument; empty bin-range lists stand for
unspecified (falsy) bin_ranges/test_bin_ranges. -/
structure InitParams where
  games : Finset ℕ
  test_games : Finset ℕ
  folds : ℤ
  fold_size : ℤ
  grid_search_folds : ℤ
  grid_search_fold_size : ℤ
  test_size : ℤ
  bin_ranges : List (ℚ × ℚ)
  test_bin_ranges : List (ℚ × ℚ)
  batch_size : ℤ

/-- The validation phase of ExperimentalData.__init__ (the sampling-mode
check is omitted: the Sampling type makes it total).  Returns the effective
test_games on success.  Note that inside the differing-game-sets branch the
source re-tests test_size < 0, although the preceding loop has already
rejected every negative value. -/
def validate_init (appids : Finset ℕ) (p : InitParams) :
    Except String (Finset ℕ) :=
  if p.games = ∅ then .error "games must be a non-empty set." else
  let testGames := if p.test_games = ∅ then p.games else p.test_games
  if ¬ (p.games ∪ testGames ⊆ appids) then .error "Unrecognized game." else
  if p.batch_size < 1 then
    .error "batch_size must have a positive, non-zero value." else
  if p.folds < 0 then .error "folds must be non-negative." else
  if p.fold_size < 0 then .error "fold_size must be non-negative." else
  if p.grid_search_folds < 0 then
    .error "grid_search_folds must be non-negative." else
  if p.grid_search_fold_size < 0 then
    .error "grid_search_fold_size must be non-negative." else
  if p.test_size < 0 then .error "test_size must be non-negative." else
  if testGames ≠ p.games then
    if p.test_size < 0 then
      .error "test_size should be specified as a value greater than 0 when games differs from test_games."
    else if p.bin_ranges ≠ [] then
      if p.test_bin_ranges = [] then
        .error "If bin_ranges for the training games is specified, then test_bin_ranges must also be specified."
      else if p.bin_ranges.length ≠ p.test_bin_ranges.length then
        .error "bin_ranges and test_bin_ranges must agree in length."
      else .ok testGames
    else if p.test_bin_ranges ≠ [] then
      .error "If test_bin_ranges is specified, bin_ranges must also be specified."
    else .ok testGames
  else .ok testGames

/-! ### Structural lemmas about the sampling primitives -/

theorem foldl_append_eq_flatMap (g : ℕ → List ℕ) :
    ∀ (ls : List ℕ) (init : List ℕ),
      ls.foldl (fun acc l => acc ++ g l) init = init ++ ls.flatMap g := by
  intro ls
  induction ls with
  | nil => intro init; simp
  | cons a ls ih =>
      intro init
      simp only [List.foldl_cons, List.flatMap_cons, ih, List.append_assoc]

theorem stratifiedDraw_eq_flatMap (freq : ℕ → ℚ) (labelIds : ℕ → List ℕ)
    (size : ℚ) (labels : List ℕ) :
    stratifiedDraw freq labelIds size labels =
      labels.flatMap (fun l => (labelIds l).take (ceilNat (freq l * size))) := by
  simpa [stratifiedDraw] using
    foldl_append_eq_flatMap
      (fun l => (labelIds l).take (ceilNat (freq l * size))) labels []

theorem evenTail_eq_flatMap (labelIds : ℕ → List ℕ) (nLabelMin : ℕ)
    (labels : List ℕ) :
    evenTail labelIds nLabelMin labels =
      labels.flatMap (fun l => (labelIds l).take nLabelMin) := by
  simpa [evenTail] using
    foldl_append_eq_flatMap (fun l => (labelIds l).take nLabelMin) labels []

theorem labelIdsOf_perm {shuffle : List ℕ → List ℕ}
    (hsh : ∀ l, (shuffle l).Perm l) (pool : Pool) (l : ℕ) :
    (labelIdsOf shuffle pool l).Perm (poolIdsWithLabel pool l) :=
  (hsh _).trans (List.perm_insertionSort _ _)

theorem mem_poolIdsWithLabel {pool : Pool} {l x : ℕ} :
    x ∈ poolIdsWithLabel pool l ↔ (x, l) ∈ pool := by
  unfold poolIdsWithLabel
  simp only [List.mem_map, List.mem_filter, beq_iff_eq]
  constructor
  · rintro ⟨⟨a, b⟩, ⟨hp, hb⟩, rfl⟩
    dsimp only at hb
    subst hb
    exact hp
  · intro h
    exact ⟨(x, l), ⟨h, rfl⟩, rfl⟩

theorem labelIdsOf_length {shuffle : List ℕ → List ℕ}
    (hsh : ∀ l, (shuffle l).Perm l) (pool : Pool) (l : ℕ) :
    (labelIdsOf shuffle pool l).length = labelCount pool l := by
  rw [(labelIdsOf_perm hsh pool l).length_eq]
  simp [poolIdsWithLabel, labelCount]

theorem mem_truncateToSize {shuffle : List ℕ → List ℕ}
    (hsh : ∀ l, (shuffle l).Perm l) {size : ℚ} {draw : List ℕ} {x : ℕ}
    (hx : x ∈ truncateToSize shuffle size draw) : x ∈ draw := by
  have hperm : (shuffle (List.insertionSort (· ≤ ·) draw)).Perm draw :=
    (hsh _).trans (List.perm_insertionSort _ _)
  simp only [truncateToSize] at hx
  split at hx
  · exact hperm.mem_iff.mp (List.mem_of_mem_take hx)
  · exact hperm.mem_iff.mp hx

theorem mem_stratifiedDraw {shuffle : List ℕ → List ℕ}
    (hsh : ∀ l, (shuffle l).Perm l) {freq : ℕ → ℚ} {pool : Pool} {size : ℚ}
    {labels : List ℕ} {x : ℕ}
    (hx : x ∈ stratifiedDraw freq (labelIdsOf shuffle pool) size labels) :
    ∃ lab, (x, lab) ∈ pool := by
  rw [stratifiedDraw_eq_flatMap] at hx
  obtain ⟨l, -, hl⟩ := List.mem_flatMap.mp hx
  exact ⟨l, mem_poolIdsWithLabel.mp
    ((labelIdsOf_perm hsh pool l).mem_iff.mp (List.mem_of_mem_take hl))⟩

theorem evenDraw_some_subset {shuffle : List ℕ → List ℕ}
    (hsh : ∀ l, (shuffle l).Perm l) {pool : Pool} {nc q : ℕ}
    {labels : List ℕ} {draw : List ℕ}
    (h : evenDraw nc q (labelIdsOf shuffle pool) labels = .ok (some draw)) :
    ∀ x ∈ draw, ∃ lab, (x, lab) ∈ pool := by
  intro x hx
  match labels with
  | [] =>
      simp only [evenDraw, Except.ok.injEq, Option.some.injEq] at h
      subst h
      simp at hx
  | l :: rest =>
      simp only [evenDraw] at h
      split at h
      · split at h
        · exact Except.noConfusion h
        · simp at h
      · simp only [Except.ok.injEq, Option.some.injEq] at h
        subst h
        rcases List.mem_append.mp hx with h1 | h2
        · exact ⟨l, mem_poolIdsWithLabel.mp
            ((labelIdsOf_perm hsh pool l).mem_iff.mp
              (List.mem_of_mem_take h1))⟩
        · rw [evenTail_eq_flatMap] at h2
          obtain ⟨l', -, hl'⟩ := List.mem_flatMap.mp h2
          exact ⟨l', mem_poolIdsWithLabel.mp
            ((labelIdsOf_perm hsh pool l').mem_iff.mp
              (List.mem_of_mem_take hl'))⟩

theorem evenDrawTest_ok_subset {shuffle : List ℕ → List ℕ}
    (hsh : ∀ l, (shuffle l).Perm l) {pool : Pool} {q : ℕ}
    {labels : List ℕ} {draw : List ℕ}
    (h : evenDrawTest q (labelIdsOf shuffle pool) labels = .ok draw) :
    ∀ x ∈ draw, ∃ lab, (x, lab) ∈ pool := by
  intro x hx
  match labels with
  | [] =>
      simp only [evenDrawTest, Except.ok.injEq] at h
      subst h
      simp at hx
  | l :: rest =>
      simp only [evenDrawTest] at h
      split at h
      · exact Except.noConfusion h
      · simp only [Except.ok.injEq] at h
        subst h
        rcases List.mem_append.mp hx with h1 | h2
        · exact ⟨l, mem_poolIdsWithLabel.mp
            ((labelIdsOf_perm hsh pool l).mem_iff.mp
              (List.mem_of_mem_take h1))⟩
        · rw [evenTail_eq_flatMap] at h2
          obtain ⟨l', -, hl'⟩ := List.mem_flatMap.mp h2
          exact ⟨l', mem_poolIdsWithLabel.mp
            ((labelIdsOf_perm hsh pool l').mem_iff.mp
              (List.mem_of_mem_take hl'))⟩

/-- The fold generator removes exactly the drawn fold from the pool: the
surviving pool entries are the pool entries whose id is not in the fold. -/
theorem generate_training_fold_pool_iff {sampling : Sampling}
    {shuffle : List ℕ → List ℕ} {freq : ℕ → ℚ} {labels : List ℕ}
    {fold_size nc nn : ℕ} {pool : Pool} {fold : List ℕ} {pool' : Pool}
    (h : generate_training_fold sampling shuffle freq labels fold_size nc nn
        pool = .ok (fold, pool')) :
    ∀ p : ℕ × ℕ, p ∈ pool' ↔ p ∈ pool ∧ p.1 ∉ fold := by
  intro p
  cases sampling with
  | stratified =>
      unfold generate_training_fold at h
      dsimp only at h
      split at h
      · split at h
        · exact Except.noConfusion h
        · simp only [Except.ok.injEq] at h
          rw [postProcess, Prod.mk.injEq] at h
          obtain ⟨hf, hp⟩ := h
          subst hf
          subst hp
          simp [List.mem_filter]
      · simp only [Except.ok.injEq] at h
        rw [postProcess, Prod.mk.injEq] at h
        obtain ⟨hf, hp⟩ := h
        subst hf
        subst hp
        simp [List.mem_filter]
  | even =>
      unfold generate_training_fold at h
      dsimp only at h
      split at h
      · exact Except.noConfusion h
      · simp only [Except.ok.injEq, Prod.mk.injEq] at h
        obtain ⟨hf, hp⟩ := h
        subst hf
        subst hp
        simp
      · simp only [Except.ok.injEq] at h
        rw [postProcess, Prod.mk.injEq] at h
        obtain ⟨hf, hp⟩ := h
        subst hf
        subst hp
        simp [List.mem_filter]

/-- Every id drawn into a fold was present in the pool. -/
theorem generate_training_fold_subset {sampling : Sampling}
    {shuffle : List ℕ → List ℕ} (hsh : ∀ l, (shuffle l).Perm l)
    {freq : ℕ → ℚ} {labels : List ℕ} {fold_size nc nn : ℕ} {pool : Pool}
    {fold : List ℕ} {pool' : Pool}
    (h : generate_training_fold sampling shuffle freq labels fold_size nc nn
        pool = .ok (fold, pool')) :
    ∀ x ∈ fold, ∃ lab, (x, lab) ∈ pool := by
  intro x hx
  cases sampling with
  | stratified =>
      unfold generate_training_fold at h
      dsimp only at h
      split at h
      · split at h
        · exact Except.noConfusion h
        · simp only [Except.ok.injEq] at h
          rw [postProcess, Prod.mk.injEq] at h
          obtain ⟨hf, -⟩ := h
          subst hf
          exact mem_stratifiedDraw hsh (mem_truncateToSize hsh hx)
      · simp only [Except.ok.injEq] at h
        rw [postProcess, Prod.mk.injEq] at h
        obtain ⟨hf, -⟩ := h
        subst hf
        exact mem_stratifiedDraw hsh (mem_truncateToSize hsh hx)
  | even =>
      unfold generate_training_fold at h
      dsimp only at h
      split at h
      · exact Except.noConfusion h
      · simp only [Except.ok.injEq, Prod.mk.injEq] at h
        obtain ⟨hf, -⟩ := h
        subst hf
        simp at hx
      · rename_i draw heq
        simp only [Except.ok.injEq] at h
        rw [postProcess, Prod.mk.injEq] at h
        obtain ⟨hf, -⟩ := h
        subst hf
        exact evenDraw_some_subset hsh heq x (mem_truncateToSize hsh hx)

/-- The whole behaviour of the fold loop of _generate_dataset on success:
the folds collected beyond the incoming accumulator are non-empty, drawn
from the incoming pool, pairwise disjoint, counted by folds_collected, and
the surviving pool is the incoming pool minus exactly their ids. -/
theorem generateDatasetLoop_spec {sampling : Sampling}
    {shuffle : List ℕ → List ℕ} (hsh : ∀ l, (shuffle l).Perm l)
    {freq : ℕ → ℚ} {labels : List ℕ} {fold_size n_folds_needed : ℕ} :
    ∀ (remaining collected : ℕ) (acc : List (List ℕ)) (pool : Pool)
      (out : List (List ℕ)) (c' : ℕ) (pool' : Pool),
      generateDatasetLoop sampling shuffle freq labels fold_size
          n_folds_needed remaining collected acc pool = .ok (out, c', pool') →
      ∃ newfs, out = acc ++ newfs ∧ c' = collected + newfs.length ∧
        (∀ f ∈ newfs, f ≠ []) ∧
        (∀ f ∈ newfs, ∀ x ∈ f, ∃ lab, (x, lab) ∈ pool) ∧
        (∀ p : ℕ × ℕ, p ∈ pool' ↔ p ∈ pool ∧ ∀ f ∈ newfs, p.1 ∉ f) ∧
        List.Pairwise (fun a b => ∀ x ∈ a, x ∉ b) newfs := by
  intro remaining
  induction remaining with
  | zero =>
      intro collected acc pool out c' pool' h
      simp only [generateDatasetLoop, Except.ok.injEq, Prod.mk.injEq] at h
      obtain ⟨h1, h2, h3⟩ := h
      subst h1; subst h2; subst h3
      exact ⟨[], by simp, by simp, by simp, by simp, by simp, by simp⟩
  | succ m ih =>
      intro collected acc pool out c' pool' h
      simp only [generateDatasetLoop] at h
      split at h
      · exact Except.noConfusion h
      · rename_i fold pool1 heq
        split at h
        · rename_i hne
          obtain ⟨newfs', hout, hc, hnonempty, hsub, hiff, hpw⟩ :=
            ih (collected + 1) (acc ++ [fold]) pool1 out c' pool' h
          have hpool1 := generate_training_fold_pool_iff heq
          have hfsub := generate_training_fold_subset hsh heq
          refine ⟨fold :: newfs', by simpa [List.append_assoc] using hout,
            by simpa using by omega, ?_, ?_, ?_, ?_⟩
          · intro f hf
            rcases List.mem_cons.mp hf with rfl | hf'
            · intro hnil; rw [hnil] at hne; simp at hne
            · exact hnonempty f hf'
          · intro f hf x hx
            rcases List.mem_cons.mp hf with rfl | hf'
            · exact hfsub x hx
            · obtain ⟨lab, hp⟩ := hsub f hf' x hx
              exact ⟨lab, ((hpool1 (x, lab)).mp hp).1⟩
          · intro p
            rw [hiff p, hpool1 p]
            constructor
            · rintro ⟨⟨hpp, hnf⟩, hall⟩
              refine ⟨hpp, ?_⟩
              intro f hf
              rcases List.mem_cons.mp hf with rfl | hf'
              · exact hnf
              · exact hall f hf'
            · rintro ⟨hpp, hall⟩
              exact ⟨⟨hpp, hall fold (List.mem_cons_self _ _)⟩,
                fun f hf => hall f (List.mem_cons_of_mem _ hf)⟩
          · refine List.pairwise_cons.mpr ⟨?_, hpw⟩
            intro f hf x hxfold hxf
            obtain ⟨lab, hp1⟩ := hsub f hf x hxf
            exact ((hpool1 (x, lab)).mp hp1).2 hxfold
        · rename_i hlen
          simp only [Except.ok.injEq, Prod.mk.injEq] at h
          obtain ⟨h1, h2, h3⟩ := h
          subst h1; subst h2; subst h3
          have h0 : fold.length = 0 := by
            by_contra hne
            exact hlen hne
          have hfold : fold = [] := List.eq_nil_of_length_eq_zero h0
          have hpool1 := generate_training_fold_pool_iff heq
          refine ⟨[], by simp, by simp, by simp, by simp, ?_, by simp⟩
          intro p
          rw [hpool1 p]
          simp [hfold]

/-- C3: a generated data-set is accepted and returned exactly when the fold
loop ran to completion and collected at least 75 percent of the requested
folds (folds_collected >= 0.75*folds, i.e. 4*collected >= 3*folds), and
every returned fold is non-empty; with fewer than 75 percent, the whole
construction errors and nothing is returned. -/
theorem c3_dataset_75_percent_threshold (sampling : Sampling)
    (shuffle : List ℕ → List ℕ) (hsh : ∀ l, (shuffle l).Perm l)
    (freq : ℕ → ℚ) (labels : List ℕ) (folds fold_size : ℕ) (pool : Pool)
    (ds : List (List ℕ)) (pool' : Pool) :
    (generate_dataset sampling shuffle freq labels folds fold_size pool =
        .ok (ds, pool') ↔
      (generateDatasetLoop sampling shuffle freq labels fold_size folds
          folds 0 [] pool = .ok (ds, ds.length, pool') ∧
        4 * ds.length ≥ 3 * folds)) ∧
    (generate_dataset sampling shuffle freq labels folds fold_size pool =
        .ok (ds, pool') → ∀ f ∈ ds, f ≠ []) := by
  constructor
  · constructor
    · intro h
      unfold generate_dataset at h
      split at h
      · exact Except.noConfusion h
      · rename_i acc collected pl heq
        split at h
        · rename_i hth
          simp only [Except.ok.injEq, Prod.mk.injEq] at h
          obtain ⟨h1, h2⟩ := h
          subst h1; subst h2
          obtain ⟨newfs, hout, hc, -⟩ := generateDatasetLoop_spec hsh
            folds 0 [] pool acc collected pl heq
          have hcl : collected = acc.length := by
            rw [hout]; simpa using hc
          rw [hcl] at heq hth
          exact ⟨heq, hth⟩
        · exact Except.noConfusion h
    · rintro ⟨hloop, hth⟩
      unfold generate_dataset
      rw [hloop]
      simp only [ge_iff_le, if_pos hth]
  · intro h f hf
    unfold generate_dataset at h
    split at h
    · exact Except.noConfusion h
    · rename_i acc collected pl heq
      split at h
      · simp only [Except.ok.injEq, Prod.mk.injEq] at h
        obtain ⟨h1, h2⟩ := h
        subst h1; subst h2
        obtain ⟨newfs, hout, -, hnonempty, -⟩ := generateDatasetLoop_spec hsh
          folds 0 [] pool acc collected pl heq
        rw [hout] at hf
        exact hnonempty f (by simpa using hf)
      · exact Except.noConfusion h

/-- A pool of three ids per label value: with even sampling and fold size 2
exactly three of four requested folds are achievable (one id of each label
per fold), which is exactly 75 percent. -/
def poolThreeThree : Pool := [(0, 0), (1, 0), (2, 0), (10, 1), (11, 1), (12, 1)]

/-- Witness for C3: at exactly 75 percent achievable folds (3 of 4) the
loop succeeds with three non-empty folds and the threshold holds, so the
data-set is accepted. -/
theorem c3_dataset_75_percent_witness :
    generateDatasetLoop .even id (fdistFreq poolThreeThree)
        (sortedLabels poolThreeThree) 2 4 4 0 [] poolThreeThree =
      .ok ([[0, 10], [1, 11], [2, 12]], 3, []) ∧ 4 * 3 ≥ 3 * 4 := by
  have h := (c3_dataset_75_percent_threshold .even id (fun l => List.Perm.refl l)
      (fdistFreq poolThreeThree) (sortedLabels poolThreeThree) 4 2
      poolThreeThree [[0, 10], [1, 11], [2, 12]] []).1.mp rfl
  exact h

/-! ### Lemmas for the even-sampling analysis -/

theorem flatMap_take_length_const (g : ℕ → List ℕ) (m : ℕ) :
    ∀ ls : List ℕ, (∀ l ∈ ls, m ≤ (g l).length) →
      (ls.flatMap (fun l => (g l).take m)).length = ls.length * m := by
  intro ls
  induction ls with
  | nil => intro _; simp
  | cons a ls ih =>
      intro hle
      simp only [List.flatMap_cons, List.length_append, List.length_take]
      rw [ih (fun l hl => hle l (List.mem_cons_of_mem a hl))]
      have : min m (g a).length = m :=
        min_eq_left (hle a (List.mem_cons_self a ls))
      rw [this, List.length_cons]
      ring

/-- With nodup pool keys, an id can lie in at most one label bucket. -/
theorem label_of_id_unique {pool : Pool}
    (hkeys : (pool.map Prod.fst).Nodup) {x l l' : ℕ}
    (h1 : x ∈ poolIdsWithLabel pool l) (h2 : x ∈ poolIdsWithLabel pool l') :
    l = l' := by
  have hp1 := mem_poolIdsWithLabel.mp h1
  have hp2 := mem_poolIdsWithLabel.mp h2
  have := List.inj_on_of_nodup_map hkeys hp1 hp2 rfl
  exact (Prod.mk.injEq _ _ _ _).mp this |>.2

theorem countP_flatMap_take_zero {pool : Pool}
    (hkeys : (pool.map Prod.fst).Nodup) {labelIds : ℕ → List ℕ}
    (hper : ∀ l', (labelIds l').Perm (poolIdsWithLabel pool l'))
    (m l : ℕ) :
    ∀ ls : List ℕ, l ∉ ls →
      ((ls.flatMap (fun l' => (labelIds l').take m)).countP
        (fun x => decide (x ∈ poolIdsWithLabel pool l))) = 0 := by
  intro ls hnotin
  rw [List.countP_eq_zero]
  intro x hx
  obtain ⟨l', hl', hxl'⟩ := List.mem_flatMap.mp hx
  have hxin : x ∈ poolIdsWithLabel pool l' :=
    (hper l').mem_iff.mp (List.mem_of_mem_take hxl')
  simp only [decide_eq_true_eq]
  intro hxl
  exact hnotin (label_of_id_unique hkeys hxl hxin ▸ hl')

theorem countP_flatMap_take {pool : Pool}
    (hkeys : (pool.map Prod.fst).Nodup) {labelIds : ℕ → List ℕ}
    (hper : ∀ l', (labelIds l').Perm (poolIdsWithLabel pool l'))
    (m l : ℕ) :
    ∀ ls : List ℕ, ls.Nodup → (∀ l' ∈ ls, m ≤ (labelIds l').length) →
      l ∈ ls →
      ((ls.flatMap (fun l' => (labelIds l').take m)).countP
        (fun x => decide (x ∈ poolIdsWithLabel pool l))) = m := by
  intro ls
  induction ls with
  | nil => intro _ _ h; simp at h
  | cons a ls ih =>
      intro hnd hle hin
      simp only [List.flatMap_cons, List.countP_append]
      rcases List.mem_cons.mp hin with rfl | hin'
      · have hseg : (((labelIds l).take m).countP
            (fun x => decide (x ∈ poolIdsWithLabel pool l))) =
              ((labelIds l).take m).length := by
          rw [List.countP_eq_length]
          intro x hx
          simp only [decide_eq_true_eq]
          exact (hper l).mem_iff.mp (List.mem_of_mem_take hx)
        have hrest : ((ls.flatMap (fun l' => (labelIds l').take m)).countP
            (fun x => decide (x ∈ poolIdsWithLabel pool l))) = 0 :=
          countP_flatMap_take_zero hkeys hper m l ls
            (List.nodup_cons.mp hnd).1
        rw [hseg, hrest, List.length_take,
          min_eq_left (hle l (List.mem_cons_self l ls))]
        omega
      · have hla : l ≠ a := by
          rintro rfl
          exact (List.nodup_cons.mp hnd).1 hin'
        have hseg : (((labelIds a).take m).countP
            (fun x => decide (x ∈ poolIdsWithLabel pool l))) = 0 := by
          rw [List.countP_eq_zero]
          intro x hx
          have hxa : x ∈ poolIdsWithLabel pool a :=
            (hper a).mem_iff.mp (List.mem_of_mem_take hx)
          simp only [decide_eq_true_eq]
          intro hxl
          exact hla (label_of_id_unique hkeys hxl hxa)
        rw [hseg, ih (List.nodup_cons.mp hnd).2
          (fun l' hl' => hle l' (List.mem_cons_of_mem a hl')) hin']
        omega

/-- C6 (amended): in even sampling mode, with labels processed in ascending
order of bucket size and a non-empty first bucket, the per-label draw count
is ceil(size / number_of_labels) and the first label's achievable count
n_label_min = min(bucket size, that quota) binds every label; PROVIDED the
uniform total number_of_labels * n_label_min does not exceed the fold size
(otherwise the final truncation of the shuffled draw cuts some label short,
see the counterexample), the returned fold has exactly n_label_min ids of
every label and size number_of_labels * n_label_min.  Instantiated at a
pool with buckets {A: 90, B: 10} and target size 20 (where 2 * 10 = 20,
so nothing is truncated), this yields 10 ids of each label. -/
theorem c6_even_mode_uniform_counts (shuffle : List ℕ → List ℕ)
    (freq : ℕ → ℚ) (l₀ : ℕ) (rest : List ℕ) (pool : Pool)
    (fold_size n_folds_collected n_folds_needed : ℕ)
    (hsh : ∀ l, (shuffle l).Perm l)
    (hkeys : (pool.map Prod.fst).Nodup)
    (hlabels : (l₀ :: rest).Nodup)
    (hasc : ∀ l ∈ rest, labelCount pool l₀ ≤ labelCount pool l)
    (hm : min (labelCount pool l₀)
        (ceilNat ((fold_size : ℚ) / (((l₀ :: rest).length : ℕ) : ℚ))) ≠ 0)
    (hfit : (l₀ :: rest).length *
        min (labelCount pool l₀)
          (ceilNat ((fold_size : ℚ) / (((l₀ :: rest).length : ℕ) : ℚ))) ≤
        fold_size) :
    ∃ fold pool',
      generate_training_fold .even shuffle freq (l₀ :: rest) fold_size
          n_folds_collected n_folds_needed pool = .ok (fold, pool') ∧
      fold.length = (l₀ :: rest).length *
        min (labelCount pool l₀)
          (ceilNat ((fold_size : ℚ) / (((l₀ :: rest).length : ℕ) : ℚ))) ∧
      ∀ l ∈ l₀ :: rest,
        (fold.filter (fun x => decide (x ∈ poolIdsWithLabel pool l))).length =
          min (labelCount pool l₀)
            (ceilNat ((fold_size : ℚ) / (((l₀ :: rest).length : ℕ) : ℚ))) := by
  set q : ℕ := ceilNat ((fold_size : ℚ) / (((l₀ :: rest).length : ℕ) : ℚ))
    with hq
  set m : ℕ := min (labelCount pool l₀) q with hmdef
  set lids : ℕ → List ℕ := labelIdsOf shuffle pool with hlids
  have hper : ∀ l', (lids l').Perm (poolIdsWithLabel pool l') :=
    fun l' => labelIdsOf_perm hsh pool l'
  have hlenl : ∀ l', (lids l').length = labelCount pool l' :=
    fun l' => labelIdsOf_length hsh pool l'
  -- the achievable count of the first label
  have hnact : ((lids l₀).take q).length = m := by
    rw [List.length_take, hlenl l₀, min_comm]
  have hmle : ∀ l ∈ l₀ :: rest, m ≤ (lids l).length := by
    intro l hl
    rw [hlenl l]
    rcases List.mem_cons.mp hl with rfl | hl'
    · exact min_le_left _ _
    · exact le_trans (min_le_left _ _) (hasc l hl')
  -- the draw produced by the even branch
  set draw : List ℕ := (lids l₀).take m ++ evenTail lids m rest with hdraw
  have hdrawflat : draw = (l₀ :: rest).flatMap (fun l => (lids l).take m) := by
    rw [hdraw, List.flatMap_cons, evenTail_eq_flatMap]
  have hdrawlen : draw.length = (l₀ :: rest).length * m := by
    rw [hdrawflat]
    exact flatMap_take_length_const lids m (l₀ :: rest) hmle
  have heven : evenDraw n_folds_collected q lids (l₀ :: rest) =
      .ok (some draw) := by
    simp only [evenDraw, hnact, if_neg hm]
  -- the epilogue does not truncate
  set fs : List ℕ := shuffle (List.insertionSort (· ≤ ·) draw) with hfs
  have hfsperm : fs.Perm draw :=
    (hsh _).trans (List.perm_insertionSort _ _)
  have hfslen : fs.length = (l₀ :: rest).length * m := by
    rw [hfsperm.length_eq, hdrawlen]
  have hnotr : ¬ ((fs.length : ℚ) > (fold_size : ℚ)) := by
    rw [hfslen]
    push_cast
    rw [not_lt]
    exact_mod_cast hfit
  have htrunc : truncateToSize shuffle (fold_size : ℚ) draw = fs := by
    simp only [truncateToSize, ← hfs, if_neg hnotr]
  have hgtf : generate_training_fold .even shuffle freq (l₀ :: rest)
      fold_size n_folds_collected n_folds_needed pool =
      .ok (fs, pool.filter (fun p => decide (p.1 ∉ fs))) := by
    unfold generate_training_fold
    dsimp only
    rw [← hlids, heven]
    simp only [postProcess, htrunc]
  refine ⟨fs, pool.filter (fun p => decide (p.1 ∉ fs)), hgtf, hfslen, ?_⟩
  intro l hl
  rw [← List.countP_eq_length_filter, hfsperm.countP_eq, hdrawflat]
  exact countP_flatMap_take hkeys hper m l (l₀ :: rest) hlabels hmle hl

/-! ### Lemmas for the pipeline disjointness analysis -/

theorem flatMap_nil_fun : ∀ ls : List ℕ,
    (ls.flatMap (fun _ => ([] : List ℕ))) = [] := by
  intro ls
  induction ls with
  | nil => rfl
  | cons a ls ih => simp [List.flatMap_cons, ih]

theorem ceilNat_zero : ceilNat 0 = 0 := by
  simp [ceilNat]

theorem stratifiedDraw_zero (freq : ℕ → ℚ) (labelIds : ℕ → List ℕ)
    (labels : List ℕ) : stratifiedDraw freq labelIds 0 labels = [] := by
  rw [stratifiedDraw_eq_flatMap]
  have hseg : ∀ l, (labelIds l).take (ceilNat (freq l * 0)) = [] := by
    intro l
    rw [mul_zero, ceilNat_zero, List.take_zero]
  induction labels with
  | nil => rfl
  | cons a ls ih =>
      rw [List.flatMap_cons, hseg a, List.nil_append]
      exact ih

theorem truncateToSize_nil {shuffle : List ℕ → List ℕ}
    (hsh : ∀ l, (shuffle l).Perm l) (size : ℚ) :
    truncateToSize shuffle size [] = [] := by
  have hnil : shuffle ([] : List ℕ) = [] := (hsh []).eq_nil
  simp [truncateToSize, hnil]

/-- Every id in a generated test set was present in the test pool. -/
theorem make_test_set_subset {sampling : Sampling}
    {shuffle : List ℕ → List ℕ} (hsh : ∀ l, (shuffle l).Perm l)
    {freq : ℕ → ℚ} {labels : List ℕ} {test_size : ℕ} {pool : Pool}
    {ts : List ℕ} {szQ : ℚ}
    (h : make_test_set sampling shuffle freq labels test_size pool =
        .ok (some (ts, szQ))) :
    ∀ x ∈ ts, ∃ lab, (x, lab) ∈ pool := by
  intro x hx
  unfold make_test_set at h
  split at h
  · simp at h
  · cases sampling with
    | stratified =>
        dsimp only at h
        split at h
        · split at h
          · exact Except.noConfusion h
          · simp only [Except.ok.injEq, Option.some.injEq,
              Prod.mk.injEq] at h
            obtain ⟨hts, -⟩ := h
            subst hts
            exact mem_stratifiedDraw hsh (mem_truncateToSize hsh hx)
        · simp only [Except.ok.injEq, Option.some.injEq, Prod.mk.injEq] at h
          obtain ⟨hts, -⟩ := h
          subst hts
          exact mem_stratifiedDraw hsh (mem_truncateToSize hsh hx)
    | even =>
        dsimp only at h
        split at h
        · exact Except.noConfusion h
        · rename_i draw heq
          simp only [Except.ok.injEq, Option.some.injEq, Prod.mk.injEq] at h
          obtain ⟨hts, -⟩ := h
          subst hts
          exact evenDrawTest_ok_subset hsh heq x (mem_truncateToSize hsh hx)

/-- A test set whose final size is zero is empty. -/
theorem make_test_set_zero {sampling : Sampling}
    {shuffle : List ℕ → List ℕ} (hsh : ∀ l, (shuffle l).Perm l)
    {freq : ℕ → ℚ} {labels : List ℕ} {test_size : ℕ} {pool : Pool}
    {ts : List ℕ} {szQ : ℚ}
    (h : make_test_set sampling shuffle freq labels test_size pool =
        .ok (some (ts, szQ)))
    (hsz : szQ = 0) : ts = [] := by
  unfold make_test_set at h
  split at h
  · simp at h
  · cases sampling with
    | stratified =>
        dsimp only at h
        split at h
        · split at h
          · exact Except.noConfusion h
          · simp only [Except.ok.injEq, Option.some.injEq,
              Prod.mk.injEq] at h
            obtain ⟨hts, hq⟩ := h
            rw [hq, hsz] at hts
            rw [← hts, stratifiedDraw_zero, truncateToSize_nil hsh]
        · simp only [Except.ok.injEq, Option.some.injEq, Prod.mk.injEq] at h
          obtain ⟨hts, hq⟩ := h
          rw [hq, hsz] at hts
          rw [← hts, stratifiedDraw_zero, truncateToSize_nil hsh]
    | even =>
        dsimp only at h
        split at h
        · exact Except.noConfusion h
        · rename_i draw heq
          simp only [Except.ok.injEq, Option.some.injEq, Prod.mk.injEq] at h
          obtain ⟨hts, hq⟩ := h
          rw [← hq] at hsz
          have hq0 : ceilNat ((test_size : ℚ) / (labels.length : ℚ)) = 0 := by
            rw [hsz, zero_div, ceilNat_zero]
          rw [hq0] at heq
          match labels, heq with
          | [], heq =>
              simp only [evenDrawTest, Except.ok.injEq] at heq
              subst heq
              rw [← hts, truncateToSize_nil hsh]
          | l :: rest, heq =>
              simp [evenDrawTest] at heq

/-- What a successful distributional_info call guarantees: a non-empty pool
whose entries all come from corpus samples of the requested games. -/
theorem distributional_info_spec {corpus : List Sample} {games : Finset ℕ}
    {pool : Pool} (h : distributional_info corpus games = .ok pool) :
    pool ≠ [] ∧
      ∀ pr ∈ pool, ∃ s, s ∈ corpus ∧ pr.1 = s.id ∧ pr.2 = s.label ∧
        s.game ∈ games := by
  rw [distributional_info] at h
  split at h
  · exact Except.noConfusion h
  · rename_i hne
    simp only [Except.ok.injEq] at h
    subst h
    constructor
    · simpa using hne
    · intro pr hpr
      obtain ⟨s, hs, hpr'⟩ := List.mem_map.mp hpr
      obtain ⟨hsc, hsg⟩ := List.mem_filter.mp hs
      exact ⟨s, hsc, by rw [← hpr'], by rw [← hpr'],
        by simpa using hsg⟩

/-- Behaviour of a successful generate_dataset call: folds are drawn from
the pool, pairwise disjoint, and the surviving pool is the original pool
minus exactly their ids. -/
theorem generate_dataset_spec {sampling : Sampling}
    {shuffle : List ℕ → List ℕ} (hsh : ∀ l, (shuffle l).Perm l)
    {freq : ℕ → ℚ} {labels : List ℕ} {folds fold_size : ℕ} {pool : Pool}
    {ds : List (List ℕ)} {pool' : Pool}
    (h : generate_dataset sampling shuffle freq labels folds fold_size pool =
        .ok (ds, pool')) :
    (∀ f ∈ ds, ∀ x ∈ f, ∃ lab, (x, lab) ∈ pool) ∧
      (∀ p : ℕ × ℕ, p ∈ pool' ↔ p ∈ pool ∧ ∀ f ∈ ds, p.1 ∉ f) ∧
      List.Pairwise (fun a b => ∀ x ∈ a, x ∉ b) ds := by
  unfold generate_dataset at h
  split at h
  · exact Except.noConfusion h
  · rename_i acc collected pl heq
    split at h
    · simp only [Except.ok.injEq, Prod.mk.injEq] at h
      obtain ⟨h1, h2⟩ := h
      subst h1; subst h2
      obtain ⟨newfs, hout, -, -, hsub, hiff, hpw⟩ :=
        generateDatasetLoop_spec hsh folds 0 [] pool acc collected pl heq
      have hacc : acc = newfs := by simpa using hout
      rw [hacc]
      exact ⟨hsub, hiff, hpw⟩
    · exact Except.noConfusion h

/-- Behaviour of the test phase on success: every test-set id comes from a
corpus sample of a test game; a zero final test size means an empty test
set; a cache is present only when the game sets coincide and holds the test
distribution. -/
theorem cldTestPhase_spec {corpus : List Sample} {games test_games : Finset ℕ}
    {sampling : Sampling} {shuffle : List ℕ → List ℕ}
    (hsh : ∀ l, (shuffle l).Perm l) {test_size : ℕ}
    {tsOpt : Option (List ℕ)} {szQ : ℚ} {cache : Option Pool}
    (h : cldTestPhase corpus games test_games sampling shuffle test_size =
        .ok (tsOpt, szQ, cache)) :
    (∀ x ∈ tsOpt.getD [], ∃ s, s ∈ corpus ∧ s.id = x ∧
      s.game ∈ test_games) ∧
    (szQ = 0 → tsOpt.getD [] = []) ∧
    (∀ c, cache = some c → test_games = games ∧
      distributional_info corpus test_games = .ok c) := by
  unfold cldTestPhase at h
  split at h
  · split at h
    · exact Except.noConfusion h
    · rename_i testPool hdinfo
      dsimp only at h
      split at h
      · exact Except.noConfusion h
      · simp only [Except.ok.injEq, Prod.mk.injEq] at h
        obtain ⟨h1, h2, h3⟩ := h
        subst h1; subst h2; subst h3
        refine ⟨by simp, by simp, ?_⟩
        intro c hc
        split at hc
        · rename_i hcond
          simp only [Option.some.injEq] at hc
          subst hc
          exact ⟨hcond.1, hdinfo⟩
        · exact Option.noConfusion hc
      · rename_i ts szQ' hmts
        simp only [Except.ok.injEq, Prod.mk.injEq] at h
        obtain ⟨h1, h2, h3⟩ := h
        subst h1; subst h2; subst h3
        refine ⟨?_, ?_, ?_⟩
        · intro x hx
          simp only [Option.getD_some] at hx
          obtain ⟨lab, hp⟩ := make_test_set_subset hsh hmts x hx
          obtain ⟨-, hmem⟩ := distributional_info_spec hdinfo
          obtain ⟨s, hs, hid, -, hg⟩ := hmem (x, lab) hp
          exact ⟨s, hs, hid.symm, hg⟩
        · intro hsz
          simp only [Option.getD_some]
          exact make_test_set_zero hsh hmts hsz
        · intro c hc
          split at hc
          · rename_i hcond
            simp only [Option.some.injEq] at hc
            subst hc
            exact ⟨hcond.1, hdinfo⟩
          · exact Option.noConfusion hc
  · simp only [Except.ok.injEq, Prod.mk.injEq] at h
    obtain ⟨h1, h2, h3⟩ := h
    subst h1; subst h2; subst h3
    exact ⟨by simp, by simp, fun c hc => Option.noConfusion hc⟩

/-- Behaviour of the pool-construction phase: the base pool either reuses
the cache or is the fresh training distribution. -/
theorem cldBasePool_spec {corpus : List Sample} {games : Finset ℕ}
    {cache : Option Pool} {basePool : Pool}
    (h : cldBasePool corpus games cache = .ok basePool) :
    (∀ c, cache = some c → basePool = c) ∧
    (cache = none → distributional_info corpus games = .ok basePool) := by
  unfold cldBasePool at h
  split at h
  · rename_i c'
    simp only [Except.ok.injEq] at h
    refine ⟨?_, fun hc => Option.noConfusion hc⟩
    intro c hc
    injection hc with hc'
    rw [← h, hc']
  · exact ⟨fun c hc => Option.noConfusion hc, fun _ => h⟩

/-- Behaviour of the test-id removal phase: the surviving pool is a subset
of the base pool; when the removal condition held, no surviving id is in
the test set; otherwise the pool is untouched. -/
theorem cldRemoveTest_spec {games test_games : Finset ℕ} {szQ : ℚ}
    {tsOpt : Option (List ℕ)} {basePool pool1 : Pool}
    (h : cldRemoveTest games test_games szQ tsOpt basePool = .ok pool1) :
    (∀ pr ∈ pool1, pr ∈ basePool) ∧
    ((szQ ≠ 0 ∧ (games ∩ test_games).Nonempty) →
      ∀ pr ∈ pool1, pr.1 ∉ tsOpt.getD []) ∧
    (¬(szQ ≠ 0 ∧ (games ∩ test_games).Nonempty) → pool1 = basePool) := by
  unfold cldRemoveTest at h
  split at h
  · rename_i hcond
    split at h
    · exact Except.noConfusion h
    · rename_i ts
      simp only [Except.ok.injEq] at h
      subst h
      refine ⟨fun pr hpr => (List.mem_filter.mp hpr).1, ?_, ?_⟩
      · intro _ pr hpr
        have := (List.mem_filter.mp hpr).2
        simpa using this
      · intro hnc
        exact absurd hcond hnc
  · rename_i hcond
    simp only [Except.ok.injEq] at h
    subst h
    exact ⟨fun pr hpr => hpr, fun hc => absurd hc hcond, fun _ => rfl⟩

/-- Behaviour of the main-training phase: the folds (none when folds = 0)
are drawn from the incoming pool, pairwise disjoint, and every entry of the
outgoing pool is an entry of the incoming pool whose id lies in no fold. -/
theorem cldTrainPhase_spec {sampling : Sampling} {shuffle : List ℕ → List ℕ}
    (hsh : ∀ l, (shuffle l).Perm l) {freq : ℕ → ℚ} {labels : List ℕ}
    {folds fold_size : ℕ} {pool1 : Pool}
    {trOpt : Option (List (List ℕ))} {pool2 : Pool}
    (h : cldTrainPhase sampling shuffle freq labels folds fold_size pool1 =
        .ok (trOpt, pool2)) :
    (∀ f ∈ trOpt.getD [], ∀ x ∈ f, ∃ lab, (x, lab) ∈ pool1) ∧
    (∀ p : ℕ × ℕ, p ∈ pool2 → p ∈ pool1 ∧ ∀ f ∈ trOpt.getD [], p.1 ∉ f) ∧
    List.Pairwise (fun a b => ∀ x ∈ a, x ∉ b) (trOpt.getD []) := by
  unfold cldTrainPhase at h
  split at h
  · split at h
    · exact Except.noConfusion h
    · rename_i tr pool2' heq
      simp only [Except.ok.injEq, Prod.mk.injEq] at h
      obtain ⟨h1, h2⟩ := h
      subst h1; subst h2
      obtain ⟨hsub, hiff, hpw⟩ := generate_dataset_spec hsh heq
      exact ⟨by simpa using hsub,
        fun p hp => by simpa using (hiff p).mp hp, by simpa using hpw⟩
  · simp only [Except.ok.injEq, Prod.mk.injEq] at h
    obtain ⟨h1, h2⟩ := h
    subst h1; subst h2
    exact ⟨by simp, fun p hp => ⟨hp, by simp⟩, by simp⟩

/-- Behaviour of the grid-search phase: its folds are drawn from the
incoming pool and are pairwise disjoint. -/
theorem cldGridPhase_spec {sampling : Sampling} {shuffle : List ℕ → List ℕ}
    (hsh : ∀ l, (shuffle l).Perm l) {freq : ℕ → ℚ} {labels : List ℕ}
    {grid_search_folds grid_search_fold_size : ℕ} {pool2 : Pool}
    {gsOpt : Option (List (List ℕ))}
    (h : cldGridPhase sampling shuffle freq labels grid_search_folds
        grid_search_fold_size pool2 = .ok gsOpt) :
    (∀ f ∈ gsOpt.getD [], ∀ x ∈ f, ∃ lab, (x, lab) ∈ pool2) ∧
    List.Pairwise (fun a b => ∀ x ∈ a, x ∉ b) (gsOpt.getD []) := by
  unfold cldGridPhase at h
  split at h
  · split at h
    · exact Except.noConfusion h
    · rename_i gs pool3 heq
      simp only [Except.ok.injEq] at h
      subst h
      obtain ⟨hsub, -, hpw⟩ := generate_dataset_spec hsh heq
      exact ⟨by simpa using hsub, by simpa using hpw⟩
  · simp only [Except.ok.injEq] at h
    subst h
    exact ⟨by simp, by simp⟩

/-- C4: (i) every fold draw removes exactly the drawn ids from the shared
pool; (ii) for every successful run of the whole construction, the test set
and all folds of the main training and grid-search data-sets are pairwise
disjoint: no identifier appears in more than one partition. -/
theorem c4_partitions_pairwise_disjoint :
    (∀ (sampling : Sampling) (shuffle : List ℕ → List ℕ) (freq : ℕ → ℚ)
      (labels : List ℕ) (fold_size nc nn : ℕ) (pool : Pool)
      (fold : List ℕ) (pool' : Pool),
      generate_training_fold sampling shuffle freq labels fold_size nc nn
          pool = .ok (fold, pool') →
      ∀ p : ℕ × ℕ, p ∈ pool' ↔ p ∈ pool ∧ p.1 ∉ fold) ∧
    (∀ (corpus : List Sample) (games test_games : Finset ℕ)
      (sampling : Sampling) (shuffle : List ℕ → List ℕ)
      (folds fold_size grid_search_folds grid_search_fold_size test_size : ℕ)
      (tr : List (List ℕ)) (gsOpt : Option (List (List ℕ)))
      (tsOpt : Option (List ℕ)) (nd : ℕ),
      (corpus.map Sample.id).Nodup →
      (∀ l, (shuffle l).Perm l) →
      construct_layered_dataset corpus games test_games sampling shuffle
          folds fold_size grid_search_folds grid_search_fold_size test_size =
        .ok (tr, gsOpt, tsOpt, nd) →
      List.Pairwise (fun a b => ∀ x ∈ a, x ∉ b)
        (tsOpt.getD [] :: (tr ++ gsOpt.getD []))) := by
  constructor
  · intro sampling shuffle freq labels fold_size nc nn pool fold pool' h
    exact generate_training_fold_pool_iff h
  · intro corpus games test_games sampling shuffle folds fold_size gsf gsfs
      test_size tr gsOpt tsOpt nd hids hsh h
    unfold construct_layered_dataset at h
    split at h
    · exact Except.noConfusion h
    · rename_i tsOpt' szQ cache hstep1
      split at h
      · exact Except.noConfusion h
      · rename_i basePool hbase
        dsimp only at h
        split at h
        · exact Except.noConfusion h
        · rename_i pool1 hremeq
          split at h
          · exact Except.noConfusion h
          · rename_i trOpt pool2 htreq
            split at h
            · exact Except.noConfusion h
            · rename_i gsOpt' hgseq
              split at h
              · exact Except.noConfusion h
              · rename_i tr'
                simp only [Except.ok.injEq, Prod.mk.injEq] at h
                obtain ⟨h1, h2, h3, -⟩ := h
                subst h1; subst h2; subst h3
                -- collected phase facts
                obtain ⟨htsMem, htsZero, hcache⟩ := cldTestPhase_spec hsh hstep1
                obtain ⟨hbc, hbn⟩ := cldBasePool_spec hbase
                obtain ⟨hr1, hr2, hr3⟩ := cldRemoveTest_spec hremeq
                obtain ⟨htr1, htr2, htr3⟩ := cldTrainPhase_spec hsh htreq
                obtain ⟨hgs1, hgs2⟩ := cldGridPhase_spec hsh hgseq
                simp only [Option.getD_some] at htr1 htr2 htr3
                -- base pool provenance: every entry comes from a training-game sample
                have hbaseMem : ∀ pr ∈ basePool, ∃ s, s ∈ corpus ∧
                    pr.1 = s.id ∧ s.game ∈ games := by
                  match hc : cache with
                  | some c =>
                      obtain ⟨hgeq, hdte⟩ := hcache c rfl
                      have hb := hbc c rfl
                      subst hb
                      intro pr hpr
                      obtain ⟨-, hmem⟩ := distributional_info_spec hdte
                      obtain ⟨s, hs, hid, -, hg⟩ := hmem pr hpr
                      exact ⟨s, hs, hid, hgeq ▸ hg⟩
                  | none =>
                      intro pr hpr
                      obtain ⟨-, hmem⟩ := distributional_info_spec (hbn rfl)
                      obtain ⟨s, hs, hid, -, hg⟩ := hmem pr hpr
                      exact ⟨s, hs, hid, hg⟩
                -- every fold of either data-set draws only from pool1
                have hfold_pool1 : ∀ f ∈ tr' ++ gsOpt'.getD [], ∀ x ∈ f,
                    ∃ lab, (x, lab) ∈ pool1 := by
                  intro f hf x hx
                  rcases List.mem_append.mp hf with hf' | hf'
                  · exact htr1 f hf' x hx
                  · obtain ⟨lab, hp2⟩ := hgs1 f hf' x hx
                    exact ⟨lab, (htr2 (x, lab) hp2).1⟩
                -- test ids never survive in pool1
                have htest_pool1 : ∀ x ∈ tsOpt'.getD [], ∀ lab,
                    (x, lab) ∉ pool1 := by
                  intro x hx lab hp
                  by_cases hcond : szQ ≠ 0 ∧ (games ∩ test_games).Nonempty
                  · exact hr2 hcond (x, lab) hp hx
                  · by_cases hsz : szQ = 0
                    · rw [htsZero hsz] at hx
                      simp at hx
                    · have hover : ¬ (games ∩ test_games).Nonempty := by
                        intro hn
                        exact hcond ⟨hsz, hn⟩
                      have hpb : (x, lab) ∈ basePool := hr1 (x, lab) hp
                      obtain ⟨s1, hs1, hid1, hg1⟩ := hbaseMem (x, lab) hpb
                      obtain ⟨s2, hs2, hid2, hg2⟩ := htsMem x hx
                      have hseq : s1 = s2 :=
                        List.inj_on_of_nodup_map hids hs1 hs2
                          (by rw [← hid1, hid2])
                      exact hover ⟨s1.game, Finset.mem_inter.mpr
                        ⟨hg1, hseq ▸ hg2⟩⟩
                refine List.pairwise_cons.mpr ⟨?_, ?_⟩
                · intro f hf x hx
                  intro hxf
                  obtain ⟨lab, hp1⟩ := hfold_pool1 f hf x hxf
                  exact htest_pool1 x hx lab hp1
                · rw [List.pairwise_append]
                  refine ⟨htr3, hgs2, ?_⟩
                  intro f hf g hg x hxf hxg
                  obtain ⟨lab, hp2⟩ := hgs1 g hg x hxg
                  exact (htr2 (x, lab) hp2).2 f hf hxf

/-- An eight-sample corpus over one game with two balanced labels, used to
exercise the full construction pipeline. -/
def corpusEight : List Sample :=
  [⟨0, 0, 0⟩, ⟨1, 0, 0⟩, ⟨2, 0, 0⟩, ⟨3, 0, 0⟩,
   ⟨4, 0, 1⟩, ⟨5, 0, 1⟩, ⟨6, 0, 1⟩, ⟨7, 0, 1⟩]

/-- Witness for C4: a concrete successful run (test size 2, two main folds,
one grid-search fold, even sampling) produces the partitions
[0, 4], [1, 5], [2, 6], [3, 7], and the theorem yields their pairwise
disjointness. -/
theorem c4_partitions_witness :
    List.Pairwise (fun a b => ∀ x ∈ a, x ∉ b)
      (((some [0, 4] : Option (List ℕ)).getD []) ::
        ([[1, 5], [2, 6]] ++
          ((some [[3, 7]] : Option (List (List ℕ))).getD []))) :=
  c4_partitions_pairwise_disjoint.2 corpusEight {0} {0} .even id 2 2 1 2 2
    [[1, 5], [2, 6]] (some [[3, 7]]) (some [0, 4]) 2 (by decide)
    (fun l => List.Perm.refl l) (by with_unfolding_all rfl)

/-- Three labels of eight ids each: for target size 20 the even-mode quota
is ceil(20/3) = 7 per label, the draw holds 21 ids, and the epilogue
truncates the shuffled fold back to 20, dropping one id of some label. -/
def poolThreeLabels : Pool :=
  (List.range 8).map (fun i => (i, 0)) ++
    (List.range 8).map (fun i => (100 + i, 1)) ++
      (List.range 8).map (fun i => (200 + i, 2))

/-- The fold returned on poolThreeLabels (identity shuffle): the final
truncation to 20 ids has dropped one label-2 id. -/
def foldThreeLabels : List ℕ :=
  [0, 1, 2, 3, 4, 5, 6, 100, 101, 102, 103, 104, 105, 106,
   200, 201, 202, 203, 204, 205]

/-- C6 counterexample: even sampling does NOT always make all labels
contribute the same count to the returned fold.  On three labels of eight
ids each with target size 20 (labels processed in ascending order, which is
[0, 1, 2] here), every label's draw contributes n_label_min = 7 ids, but
the epilogue truncates the 21-id draw to 20, so the returned fold holds 7,
7 and 6 ids of the three labels: the label counts of the fold are not all
equal. -/
theorem c6_even_mode_truncation_counterexample :
    generate_training_fold .even id (fdistFreq poolThreeLabels) [0, 1, 2] 20
        0 5 poolThreeLabels =
      .ok (foldThreeLabels, [(7, 0), (107, 1), (206, 2), (207, 2)]) ∧
    (foldThreeLabels.filter
      (fun x => decide (x ∈ poolIdsWithLabel poolThreeLabels 0))).length = 7 ∧
    (foldThreeLabels.filter
      (fun x => decide (x ∈ poolIdsWithLabel poolThreeLabels 2))).length = 6 ∧
    ¬ ((foldThreeLabels.filter
          (fun x => decide (x ∈ poolIdsWithLabel poolThreeLabels 2))).length =
        (foldThreeLabels.filter
          (fun x => decide (x ∈ poolIdsWithLabel poolThreeLabels 0))).length) := by
  refine ⟨?_, by decide, by decide, by decide⟩
  with_unfolding_all rfl

/-- The spec's even-sampling example corpus: 90 samples of label 1 (A) and
10 samples of label 0 (B). -/
def poolNinetyTen : Pool :=
  (List.range 10).map (fun i => (200 + i, 0)) ++
    (List.range 90).map (fun i => (i, 1))

/-- Witness for C6: on the {A: 90, B: 10} pool with target size 20, even
sampling yields a fold of 20 ids, 10 of each label. -/
theorem c6_even_mode_witness :
    ∃ fold pool',
      generate_training_fold .even id (fdistFreq poolNinetyTen) [0, 1] 20 0 5
          poolNinetyTen = .ok (fold, pool') ∧
      fold.length = 20 ∧
      (fold.filter
        (fun x => decide (x ∈ poolIdsWithLabel poolNinetyTen 0))).length = 10 ∧
      (fold.filter
        (fun x => decide (x ∈ poolIdsWithLabel poolNinetyTen 1))).length = 10 := by
  obtain ⟨fold, pool', hgtf, hlen, hcount⟩ :=
    c6_even_mode_uniform_counts id (fdistFreq poolNinetyTen) 0 [1]
      poolNinetyTen 20 0 5 (fun l => List.Perm.refl l) (by decide) (by decide)
      (by decide) (by decide) (by decide)
  refine ⟨fold, pool', hgtf, ?_, ?_, ?_⟩
  · rw [hlen]; decide
  · rw [hcount 0 (by simp)]; decide
  · rw [hcount 1 (by simp)]; decide

/-! ### Concrete pools used by the code-bug evaluations -/

/-- Eight samples, four per label value: the rarest label needs 5 of a
quota for test size 10 but only 4 exist, giving shrink factor 0.8. -/
def poolFourFour : Pool :=
  [(0, 0), (1, 0), (2, 0), (3, 0), (10, 1), (11, 1), (12, 1), (13, 1)]

/-- Four samples, two per label value: for test size 10 each label needs 5
but only 2 exist, giving shrink factor 0.4 (a 60 percent shrink). -/
def poolTwoTwo : Pool := [(0, 0), (1, 0), (10, 1), (11, 1)]

/-- Thirty-eight samples, nineteen per label value: for fold size 40 each
label needs 20 but only 19 exist, giving shrink factor 0.95 (a 5 percent
shrink). -/
def poolNineteen : Pool :=
  (List.range 19).map (fun i => (i, 0)) ++
    (List.range 19).map (fun i => (100 + i, 1))

/-- C1 (code bug): the source's test-set degradation ceiling is inverted.
With two labels of 4 ids each and requested test size 10, the shrink factor
is 0.8 (a 20 percent shrink, well under the 50 percent ceiling), yet
_make_test_set raises; with two labels of 2 ids each the factor is 0.4 (a
60 percent shrink, far over the ceiling), yet construction succeeds and
returns a test set of 4 ids.  The claim (and the source's own error
message and comment) say exactly the opposite. -/
theorem c1_test_set_ceiling_inverted :
    make_test_set .stratified id (fdistFreq poolFourFour)
        (sortedLabels poolFourFour) 10 poolFourFour =
      .error "Could not generate a stratified test set that is equal to the desired size or even 50 percent of the desired size." ∧
    make_test_set .stratified id (fdistFreq poolTwoTwo)
        (sortedLabels poolTwoTwo) 10 poolTwoTwo =
      .ok (some ([0, 1, 10, 11], 4)) :=
  ⟨rfl, rfl⟩

/-- C2 (code bug): the source's fold degradation ceiling is inverted, and
its abort path crashes.  With a 20 percent shrink (factor 0.8), a second
fold needed and one fold already collected, _generate_training_fold
succeeds with a shrunk fold instead of aborting; with a 5 percent shrink
(factor 0.95, under the 10 percent ceiling) it evaluates
len(n_folds_collected) on an int and dies with TypeError instead of
shrinking. -/
theorem c2_fold_ceiling_inverted :
    generate_training_fold .stratified id (fdistFreq poolFourFour)
        (sortedLabels poolFourFour) 10 1 2 poolFourFour =
      .ok ([0, 1, 2, 3, 10, 11, 12, 13], []) ∧
    generate_training_fold .stratified id (fdistFreq poolNineteen)
        (sortedLabels poolNineteen) 40 1 2 poolNineteen =
      .error "TypeError: object of type int has no len()" :=
  ⟨rfl, by set_option maxRecDepth 4000 in rfl⟩

/-- C9 (code bug): constructor validation accepts test_size = 0 with
differing training and test game sets, because the guard inside the
differing-games branch re-tests test_size < 0 (already excluded by the
non-negativity loop) instead of test_size <= 0. -/
theorem c9_zero_test_size_accepted :
    validate_init {0, 1}
        ⟨{0}, {1}, 1, 1, 1, 1, 0, [], [], 50⟩ = .ok {1} := rfl

/-- C10: a fold count of zero passes constructor validation (zero is
non-negative), but construction then skips main-training-set generation,
leaving training_set as None, and the unconditional
num_datasets = len(self.training_set) raises TypeError, so the constructor
never returns successfully for folds = 0. -/
theorem c10_zero_folds_never_succeeds :
    validate_init {0} ⟨{0}, ∅, 0, 1, 1, 1, 0, [], [], 50⟩ = .ok {0} ∧
    ∀ (corpus : List Sample) (games test_games : Finset ℕ)
      (sampling : Sampling) (shuffle : List ℕ → List ℕ)
      (fold_size grid_search_folds grid_search_fold_size test_size : ℕ)
      (r : List (List ℕ) × Option (List (List ℕ)) × Option (List ℕ) × ℕ),
      construct_layered_dataset corpus games test_games sampling shuffle 0
        fold_size grid_search_folds grid_search_fold_size test_size ≠
        .ok r := by
  constructor
  · rfl
  · intro corpus games test_games sampling shuffle fs gsf gsfs ts r h
    unfold construct_layered_dataset at h
    split at h
    · exact Except.noConfusion h
    · split at h
      · exact Except.noConfusion h
      · rename_i basePool hbase
        dsimp only at h
        split at h
        · exact Except.noConfusion h
        · rename_i pool1 hrem
          split at h
          · exact Except.noConfusion h
          · rename_i trOpt pool2 htr
            have htr0 : cldTrainPhase sampling shuffle
                (fdistFreq basePool) (sortedLabels basePool) 0 fs pool1 =
                .ok (none, pool1) := rfl
            rw [htr0] at htr
            simp only [Except.ok.injEq, Prod.mk.injEq] at htr
            obtain ⟨h1, -⟩ := htr
            subst h1
            split at h
            · exact Except.noConfusion h
            · exact Except.noConfusion h

/-- Witness for C10: with a one-sample corpus and folds = 0, construction
does not return the putative empty result. -/
theorem c10_zero_folds_witness :
    construct_layered_dataset [⟨0, 0, 0⟩] {0} {0} .even id 0 1 1 1 0 ≠
      .ok ([], none, some [], 0) :=
  c10_zero_folds_never_succeeds.2 [⟨0, 0, 0⟩] {0} {0} .even id 1 1 1 0
    ([], none, some [], 0)

end REP
